import Mathlib

/-!
Verification of the jsxgettext extraction and catalog-merge logic.

This file gives a shallow embedding, in Lean, of the two source files of the
repository:

  * `lib/po-helper.js` (provided unnamed): `mergeComment`, `mergeComments`,
    `mergeTranslation`, `mergeTranslations`, `defaultHeaders` (the file-system
    reader `readPoFile` is an external collaborator; its result is passed to
    `parse` as an `Option PoJSON` argument);
  * `lib/jsxgettext.js`: the string-literal analyzer (`isStringLiteral`,
    `isStrConcatExpr`, `isString`, `extractStr`), the call-site extractor
    (`getFunctionNameAndArguments`), `maybeExtractMsgids`, the comment filter
    installed via the parser's `onComment` hook, `findComments`, the
    JSX-extended tree walk (`walkBase` + `walk.simple`), `parseFile`, and the
    orchestrator `parse`.

Modelling conventions:
  * JavaScript objects used as string-keyed dictionaries become ordered
    association lists (`List (String × _)`); JS objects preserve insertion
    order, assignment to an existing key replaces its value in place, and
    assignment to a fresh key appends.  (Prototype-chain artefacts of the JS
    `in` operator for keys such as `"toString"` are outside the model.)
  * A JS value that may be `undefined` becomes an `Option`; a key that is
    absent from an object is `none`.  Since `none` models an absent key, the
    deep copy `JSON.parse(JSON.stringify(x))` (which drops `undefined`-valued
    keys) is the identity in the model.
  * JS truthiness on strings (`""` is falsy) is modelled explicitly by
    `jsOrS` / `jsOrStr`.
  * Text parsing (acorn) is an external collaborator: `parseFile` receives
    the already-parsed syntax tree (`Node`) together with the raw comment
    tokens the parser reports through `onComment`.  The comment FILTER that
    jsxgettext installs in the hook is part of the source and is modelled
    (`captureComments`), as is the regex `^\s*TAG|^\/` that `parse` builds
    from the (escaped, hence literal) tag.
  * The current time (`new Date()...`) is passed in as the string `now`.
-/

/-- JS `a || b` where `a`, `b` are string-or-`undefined` values: `""` and
`undefined` are falsy. -/
def jsOrS : Option String → Option String → Option String
  | some a, b => if a = "" then b else some a
  | none, b => b

/-- JS `a || b` where `a` is string-or-`undefined` and `b` is a (truthy)
string default. -/
def jsOrStr (a : Option String) (b : String) : String :=
  match a with
  | some s => if s = "" then b else s
  | none => b

/-- JS `s.startsWith(pre)`, as a character-list prefix test. -/
def jsStartsWith (pre s : String) : Bool :=
  List.isPrefixOf pre.toList s.toList

/-- JS `s.slice(n)` for the one use `text.replace(/^\//, '')` needs:
drop the first `n` characters. -/
def jsDrop (n : Nat) (s : String) : String :=
  String.mk (s.toList.drop n)

/-- JS `s.trim()`: strip leading and trailing whitespace. -/
def jsTrim (s : String) : String :=
  String.mk
    (((s.toList.dropWhile Char.isWhitespace).reverse.dropWhile Char.isWhitespace).reverse)

/-- Splitting a character list at every newline; every separator produces a
segment, so the empty list yields one empty segment, as JS
`"".split('\n') = [""]`. -/
def splitNlAux : List Char → List Char → List (List Char)
  | cur, [] => [cur.reverse]
  | cur, c :: cs =>
      if c = '\n' then cur.reverse :: splitNlAux [] cs
      else splitNlAux (c :: cur) cs

/-- JS `s.split('\n')`. -/
def jsSplitNewline (s : String) : List String :=
  (splitNlAux [] s.toList).map String.mk

/-- Lookup in a JS object modelled as an ordered association list. -/
def lookupA {α : Type} : List (String × α) → String → Option α
  | [], _ => none
  | (k, v) :: rest, key => if k = key then some v else lookupA rest key

/-- JS assignment `obj[key] = v`: replace in place if the key exists,
append otherwise. -/
def setA {α : Type} : List (String × α) → String → α → List (String × α)
  | [], key, v => [(key, v)]
  | (k, w) :: rest, key, v =>
      if k = key then (k, v) :: rest else (k, w) :: setA rest key v

/-! ## po-helper: comment and translation merging -/

/-- The body of `deduplicateFilter` applied via `Array.prototype.filter`:
keep an item iff it is truthy (non-empty) and this is its first occurrence.
`seen` carries the items already passed (kept or dropped). -/
def dedupFilter : List String → List String → List String
  | _, [] => []
  | seen, x :: xs =>
      if x ≠ "" ∧ x ∉ seen then x :: dedupFilter (x :: seen) xs
      else dedupFilter (x :: seen) xs

/-- The both-strings branch of `mergeComment`: split on newlines, concatenate
old lines then new lines, drop falsy/duplicate lines, rejoin. -/
def dedupJoin (o n : String) : String :=
  String.intercalate "\n" (dedupFilter [] (jsSplitNewline o ++ jsSplitNewline n))

/-- `mergeComment(oldComment, newComment)` from po-helper. -/
def mergeComment : Option String → Option String → Option String
  | some o, some n => some (dedupJoin o n)
  | o, n => jsOrS o n

/-- The `comments` record of a translation entry; each field may be absent. -/
structure CommentsRec where
  reference : Option String
  extracted : Option String
deriving DecidableEq, Repr

/-- `mergeComments(oldComments, newComments)` from po-helper.  When either
input is not an object (absent), JS `old || new` applies; an object is always
truthy, so that is `old <|> new` on `Option`. -/
def mergeComments : Option CommentsRec → Option CommentsRec → Option CommentsRec
  | some o, some n =>
      some { reference := mergeComment o.reference n.reference,
             extracted := mergeComment o.extracted n.extracted }
  | some o, _ => some o
  | none, n => n

/-- A translation entry.  `msgid` and `msgstr` are present on every entry
this program or the catalog parser produces; `msgid_plural` and `comments`
are optional keys. -/
structure Translation where
  msgid : String
  msgid_plural : Option String
  msgstr : List String
  comments : Option CommentsRec
deriving DecidableEq, Repr

/-- `mergeTranslation(oldTranslation, newTranslation)` from po-helper:
`Object.assign({comments: {}}, old, new)` (new's present keys override
old's), then the `comments` field is overwritten with
`mergeComments(old.comments, new.comments)`. -/
def mergeTranslation (o n : Translation) : Translation :=
  { msgid := n.msgid,
    msgid_plural := n.msgid_plural.orElse (fun _ => o.msgid_plural),
    msgstr := n.msgstr,
    comments := mergeComments o.comments n.comments }

/-- The default-context catalog entries: a JS object keyed by msgid. -/
abbrev Translations := List (String × Translation)

/-- `mergeTranslations(oldTranslations, newTranslations)` from po-helper:
deep-copy the old mapping (identity in the model), then for every key of the
new mapping, merge into an existing entry or insert the new entry. -/
def mergeTranslations (o n : Translations) : Translations :=
  n.foldl
    (fun acc kv =>
      match lookupA acc kv.1 with
      | some old => setA acc kv.1 (mergeTranslation old kv.2)
      | none => setA acc kv.1 kv.2)
    o

/-- Catalog headers; a header value may be `undefined`
(`report-msgid-bugs-to` is set to the option's value verbatim). -/
abbrev Headers := List (String × Option String)

/-- `defaultHeaders(projectIdVersion, reportBugsTo)` from po-helper; `now`
stands for the `new Date()`-derived timestamp string. -/
def defaultHeaders (projectIdVersion reportBugsTo : Option String) (now : String) : Headers :=
  [ ("project-id-version", some (jsOrStr projectIdVersion "PACKAGE VERSION")),
    ("language-team", some "LANGUAGE <LL@li.org>"),
    ("report-msgid-bugs-to", reportBugsTo),
    ("pot-creation-date", some now),
    ("po-revision-date", some "YEAR-MO-DA HO:MI+ZONE"),
    ("language", some ""),
    ("mime-version", some "1.0"),
    ("content-type", some "text/plain; charset=utf-8"),
    ("content-transfer-encoding", some "8bit") ]

/-- Modelled from the spec: `poHelper.compareTranslations` is called by the
orchestrator (line 230 of `lib/jsxgettext.js`) but its definition is not
among the provided sources.  Per the spec (§4.5), it detects whether "the
accumulator differs from the original loaded entries (structural inequality,
not merely reference)", i.e. it returns `true` exactly when the two entry
mappings are structurally unequal. -/
def compareTranslations (a b : Translations) : Bool :=
  decide (a ≠ b)

/-! ## The syntax-tree fragment and the string-literal / call-site analyzers -/

/-- The fragment of the (JSX-extended) acorn syntax tree that the extractor
inspects.  Constructors carry exactly the fields the source reads:
`call` carries `loc.start.line`; `member` carries `object`, `property` and
`computed`; `jsxElement` carries `openingElement.attributes` and `children`;
`jsxAttribute` carries `value`.  `literalOther` stands for a `Literal` whose
`value` is not a string. -/
inductive Node where
  | literalStr (value : String)
  | literalOther
  | ident (name : String)
  | binary (operator : String) (left right : Node)
  | call (callee : Node) (args : List Node) (line : Nat)
  | member (obj property : Node) (computed : Bool)
  | exprStmt (expression : Node)
  | program (body : List Node)
  | jsxElement (attributes children : List Node)
  | jsxAttribute (value : Node)
  | jsxSpreadAttribute (argument : Node)
  | jsxExpressionContainer (expression : Node)
  | jsxEmptyExpression

/-- `node.name`: defined (and non-empty) exactly on identifiers. -/
def nodeName : Node → Option String
  | .ident n => some n
  | _ => none

/-- `isStringLiteral(node)`: a `Literal` whose value is a string. -/
def isStringLiteral : Node → Bool
  | .literalStr _ => true
  | _ => false

/-- `isStrConcatExpr(node)`: a `+`-`BinaryExpression` whose operands each
qualify recursively. -/
def isStrConcatExpr : Node → Bool
  | .binary op l r =>
      op = "+" && (isStringLiteral l || isStrConcatExpr l)
        && (isStringLiteral r || isStrConcatExpr r)
  | _ => false

/-- `isString(node)` from the source. -/
def isString (node : Node) : Bool :=
  isStringLiteral node || isStrConcatExpr node

/-- `extractStr(node)`.  The source comment says: assumes `node` is either a
string `Literal` or a string-concatenation expression; outside that
precondition the catch-all branch is never exercised by the program. -/
def extractStr : Node → String
  | .literalStr s => s
  | .binary _ l r => extractStr l ++ extractStr r
  | _ => ""

/-- `prop.name || prop.value` on a property node, as a JS string value:
an identifier contributes its name, a string literal its value (note `""`
stays falsy for the surrounding `||` chain, handled by `jsOrS` at the call
site), anything else is not a string and can never match an allowed name,
hence `none`. -/
def propNameOrValue : Node → Option String
  | .ident n => some n
  | .literalStr s => some s
  | _ => none

/-- `callee.object.name || (prop && (prop.name || prop.value))` where
`prop = callee.object.property`: the function name extracted for the
`fn.call(...)` convention. -/
def callConventionName : Node → Option String
  | .member _ p _ => jsOrS (nodeName p) (propNameOrValue p)
  | obj => nodeName obj

/-- `getFunctionNameAndArguments(node)` from the source.  Returns `none` for
the source's `false`; otherwise the pair of the resolved function name (a JS
string value that may be `undefined`, hence `Option String`) and the
effective argument list. -/
def getFunctionNameAndArguments : Node → Option (Option String × List Node)
  | .call callee args _ =>
      match nodeName callee with
      | some n => some (some n, args)
      | none =>
          match callee with
          | .member obj property _ =>
              if nodeName property = some "call" then
                some (match obj with
                      | .ident n => jsOrS (some n) (callConventionName obj)
                      | _ => callConventionName obj,
                      args.drop 1)
              else
                some (nodeName property, args)
          | _ => none
  | _ => none

/-- `allowedNames.indexOf(functionName) !== -1`; an `undefined` name is never
found in a list of strings. -/
def allowedContains (allowedNames : List String) : Option String → Bool
  | some s => allowedNames.contains s
  | none => false

/-- `functionName.substr(0, 1) === "n"` (the name is a genuine string by the
time this runs, since it was found among `allowedNames`). -/
def startsWithN : Option String → Bool
  | some s => jsStartsWith "n" s
  | none => false

/-- Result of `maybeExtractMsgids`: the source returns `false`/`undefined`
(`skip`), an array of one or two msgids, or throws; the throw carries the
unparseable first argument (`undefined` when the call has no arguments),
which the source serializes into the message. -/
inductive MsgidsResult where
  | skip
  | one (msgid : String)
  | two (msgid plural : String)
  | error (firstArg : Option Node)

/-- `maybeExtractMsgids(node, allowedNames, strict)` from the source; the
strict-mode `throw` is made explicit as the `error` constructor, which
`parseFile` propagates. -/
def maybeExtractMsgids (node : Node) (allowedNames : List String) (strict : Bool) :
    MsgidsResult :=
  match getFunctionNameAndArguments node with
  | none => .skip
  | some (functionName, args) =>
      if allowedContains allowedNames functionName then
        match args with
        | firstArg :: secondArg :: _ =>
            if startsWithN functionName && isString firstArg && isString secondArg then
              .two (extractStr firstArg) (extractStr secondArg)
            else if isString firstArg then .one (extractStr firstArg)
            else if strict then .error (some firstArg)
            else .skip
        | [firstArg] =>
            if isString firstArg then .one (extractStr firstArg)
            else if strict then .error (some firstArg)
            else .skip
        | [] => if strict then .error none else .skip
      else .skip

/-! ## The extended tree walk

`walk.simple(ast, {CallExpression: ...}, walkBase)` reaches every node by
following the per-node-kind edges of `walkBase` (acorn's `walk.base` extended
with the JSX rules of the source) and fires the visitor after recursing into
a node's children (acorn runs `baseVisitor[type]` before `visitors[type]`),
i.e. in post-order.  `visit` lists the nodes in visitor-call order. -/

mutual

/-- Nodes reached by the walk from a node, in visitor-call (post-) order.
Edges per node kind: `Program` → body; `ExpressionStatement` → expression;
`CallExpression` → callee then arguments; `MemberExpression` → object, and
property only if computed; `BinaryExpression` → left, right;
`JSXElement` → opening-element attributes then children; `JSXAttribute` →
value only when the value is a `JSXExpressionContainer`;
`JSXSpreadAttribute` → argument; `JSXExpressionContainer` → expression;
`JSXEmptyExpression`, literals and identifiers → nothing. -/
def visit : Node → List Node
  | .program body => visitList body ++ [.program body]
  | .exprStmt e => visit e ++ [.exprStmt e]
  | .call callee args line => visit callee ++ visitList args ++ [.call callee args line]
  | .member obj property computed =>
      visit obj ++ (if computed then visit property else []) ++ [.member obj property computed]
  | .binary op l r => visit l ++ visit r ++ [.binary op l r]
  | .literalStr s => [.literalStr s]
  | .literalOther => [.literalOther]
  | .ident n => [.ident n]
  | .jsxElement attrs children =>
      visitList attrs ++ visitList children ++ [.jsxElement attrs children]
  | .jsxAttribute value =>
      (match value with
       | .jsxExpressionContainer e => visit (.jsxExpressionContainer e)
       | _ => []) ++ [.jsxAttribute value]
  | .jsxSpreadAttribute arg => visit arg ++ [.jsxSpreadAttribute arg]
  | .jsxExpressionContainer e => visit e ++ [.jsxExpressionContainer e]
  | .jsxEmptyExpression => [.jsxEmptyExpression]

/-- Walk each node of a list in order. -/
def visitList : List Node → List Node
  | [] => []
  | n :: ns => visit n ++ visitList ns

end

/-- Whether a node is a `CallExpression` (the only visitor registered by
`parseFile`). -/
def isCall : Node → Bool
  | .call _ _ _ => true
  | _ => false

/-- `node.loc.start.line` of a call node. -/
def callLine : Node → Nat
  | .call _ _ line => line
  | _ => 0

/-! ## Comment capture and attachment -/

/-- A comment token as acorn reports it to the `onComment` hook: its text
(without the comment delimiters) and the line of its starting position (the
source stores `startLoc` under the name `line` and reads `.line.line`). -/
structure RawComment where
  line : Nat
  text : String
deriving DecidableEq, Repr

/-- A captured comment as pushed onto `astComments`. -/
structure CommentNode where
  line : Nat
  value : String
deriving DecidableEq, Repr

/-- Leading-whitespace removal, for the `^\s*` part of the comment regex. -/
def dropLeadingWs (s : String) : String :=
  String.mk (s.toList.dropWhile Char.isWhitespace)

/-- `text.match(commentRegex)` where
`commentRegex = new RegExp("^\\s*" + regExpEscape(tagName) + "|" + "^\\/")`:
the escaped tag matches literally after any leading whitespace, or the text
starts with a slash (the third `/` of an xgettext-style `///` comment). -/
def matchesCommentRegex (tagName text : String) : Bool :=
  jsStartsWith tagName (dropLeadingWs text) || jsStartsWith "/" text

/-- `text.replace(/^\//, '')`: strip one leading slash if present. -/
def stripLeadingSlash (text : String) : String :=
  if jsStartsWith "/" text then jsDrop 1 text else text

/-- The `onComment` hook body of `parseFile`, applied to every comment token
the parser reports, in order: keep a comment iff its text matches the regex
and, once the leading slash is stripped and the text trimmed, it is
non-empty. -/
def captureComments (tagName : String) (raw : List RawComment) : List CommentNode :=
  raw.filterMap fun c =>
    if matchesCommentRegex tagName c.text then
      let text := jsTrim (stripLeadingSlash c.text)
      if text = "" then none else some { line := c.line, value := text }
    else none

/-- `findComments(comments, line)` from the source: the captured values whose
line equals the call's line or immediately precedes it, newline-joined in
encounter order (the `filter(Boolean)` also drops empty values). -/
def findComments (comments : List CommentNode) (line : Nat) : String :=
  String.intercalate "\n"
    ((comments.filterMap fun node =>
        if node.line = line ∨ node.line + 1 = line then some node.value else none).filter
      (fun v => v ≠ ""))

/-! ## parseFile -/

/-- A thrown JS `Error`, as `parseFile`/`parse` can raise one: either a plain
message, or the strict-mode extraction error, which carries the unparseable
first argument (the source serializes it into the message with
`JSON.stringify`). -/
inductive JsError where
  | message (s : String)
  | couldNotParse (firstArg : Option Node)

/-- The translation record built for one call site
(lines 166–177 of `lib/jsxgettext.js`): `msgstr` starts as the empty array
and becomes `["", ""]` exactly when a plural msgid was extracted. -/
def buildTranslation (filename msgid : String) (plural : Option String)
    (line : Nat) (comments : String) : Translation :=
  { msgid := msgid,
    msgid_plural := plural,
    msgstr := match plural with | some _ => ["", ""] | none => [],
    comments := some { extracted := some comments,
                       reference := some (filename ++ ":" ++ toString line) } }

/-- The per-file accumulation step (lines 179–183): merge into an existing
entry for the same msgid, insert otherwise. -/
def addTranslation (translations : Translations) (t : Translation) : Translations :=
  match lookupA translations t.msgid with
  | some old => setA translations t.msgid (mergeTranslation old t)
  | none => setA translations t.msgid t

/-- The `CallExpression` visitor body of `parseFile` applied to one visited
node, threading the accumulated per-file mapping; the strict-mode throw
aborts the walk. -/
def processCall (filename : String) (astComments : List CommentNode)
    (functionNames : List String) (strict : Bool)
    (translations : Translations) (node : Node) : Except JsError Translations :=
  match maybeExtractMsgids node functionNames strict with
  | .skip => pure translations
  | .error firstArg => throw (.couldNotParse firstArg)
  | .one msgid =>
      pure (addTranslation translations
        (buildTranslation filename msgid none (callLine node)
          (findComments astComments (callLine node))))
  | .two msgid plural =>
      pure (addTranslation translations
        (buildTranslation filename msgid (some plural) (callLine node)
          (findComments astComments (callLine node))))

/-- `parseFile(filename, source, commentRegex, functionNames, strict)` from
the source, over the already-parsed tree: capture the matching comments, then
run the walk's `CallExpression` visitor over every visited call in visitor
order, accumulating the per-file mapping.  (The hash-bang strip on the raw
text happens before parsing and is part of the external parsing step.) -/
def parseFile (filename : String) (ast : Node) (raw : List RawComment)
    (tagName : String) (functionNames : List String) (strict : Bool) :
    Except JsError Translations :=
  let astComments := captureComments tagName raw
  ((visit ast).filter isCall).foldlM
    (processCall filename astComments functionNames strict) []

/-! ## The orchestrator -/

/-- The `translations` field of a loaded catalog object.  `invalid` models a
value that is missing or not an object (the shape the orchestrator rejects);
`obj` is a mapping from context key to entry mapping. -/
inductive JsTranslations where
  | invalid
  | obj (contexts : List (String × Translations))

/-- A catalog object as read from or written to the po library. -/
structure PoJSON where
  charset : String
  headers : Headers
  translations : JsTranslations

/-- The recognized options of `parse`.  `keyword` is `Option` because the
source distinguishes a supplied list from an absent one; `sanity` is the
strict-mode flag. -/
structure ParseOptions where
  joinExisting : Bool
  keyword : Option (List String)
  addComments : Option String
  sanity : Bool
  projectIdVersion : Option String
  reportBugsTo : Option String

/-- One source file as handed to `parse` after external parsing: its name,
its syntax tree, and the comment tokens the parser reported. -/
structure SourceFile where
  filename : String
  ast : Node
  comments : List RawComment

/-- The fresh catalog constructed when no existing one is used
(lines 196–202). -/
def freshPoJSON (opts : ParseOptions) (now : String) : PoJSON :=
  { charset := "utf-8",
    headers := defaultHeaders opts.projectIdVersion opts.reportBugsTo now,
    translations := .obj [("", ([] : Translations))] }

/-- What `parse` returns.  `finalKeyword` is the value of `options.keyword`
after the call: the source mutates the caller's options object (it pushes an
`"n"`-prefixed alias per supplied keyword, or installs the default list), and
the model makes that mutation explicit by returning the final value. -/
structure ParseOutput where
  po : PoJSON
  finalKeyword : List String

/-- `parse(sources, options)` from the source.  `loaded` is the result of
`poHelper.readPoFile` on the configured output path (an external read that
yields `none` on any read/parse failure); it is consulted only when
`options.joinExisting` is set.  `now` stands for the current time rendered
the way the source renders it. -/
def parse (loaded : Option PoJSON) (sources : List SourceFile)
    (opts : ParseOptions) (now : String) : Except JsError ParseOutput :=
  let poJSON := (if opts.joinExisting then loaded else none).getD (freshPoJSON opts now)
  match poJSON.translations with
  | .invalid =>
      .error (.message "An error occurred while using the provided PO file. Please make sure it is valid by using `msgfmt -c`.")
  | .obj ctxs =>
      match lookupA ctxs "" with
      | none =>
          -- `JSON.parse(JSON.stringify(undefined))` throws when the default
          -- context is missing from a loaded catalog; the deep copy of the
          -- entries is otherwise the identity in the model.
          .error (.message "Unexpected token u in JSON at position 0")
      | some original =>
          let keywords :=
            match opts.keyword with
            | some kw => kw ++ kw.map (fun k => "n" ++ k)
            | none => ["gettext", "ngettext"]
          let tagName := jsOrStr opts.addComments "L10n:"
          (sources.foldlM
            (fun acc src =>
              (parseFile src.filename src.ast src.comments tagName keywords
                opts.sanity).map
                (fun newTranslations => mergeTranslations acc newTranslations))
            original).map
            (fun translations =>
              { po := { charset := poJSON.charset,
                        headers :=
                          if opts.joinExisting && compareTranslations translations original then
                            setA poJSON.headers "pot-creation-date" (some now)
                          else poJSON.headers,
                        translations := .obj (setA ctxs "" translations) },
                finalKeyword := keywords })

/-- The `CallExpression` visitor step with `strict = false`, where it is a
total function. -/
def nonstrictStep (filename : String) (astComments : List CommentNode)
    (functionNames : List String) (acc : Translations) (node : Node) : Translations :=
  match maybeExtractMsgids node functionNames false with
  | .one msgid =>
      addTranslation acc
        (buildTranslation filename msgid none (callLine node)
          (findComments astComments (callLine node)))
  | .two msgid plural =>
      addTranslation acc
        (buildTranslation filename msgid (some plural) (callLine node)
          (findComments astComments (callLine node)))
  | _ => acc

/-- The walk's accumulated mapping on the non-strict path, as a total
function. -/
def parseFileNonstrict (filename : String) (ast : Node) (raw : List RawComment)
    (tagName : String) (functionNames : List String) : Translations :=
  ((visit ast).filter isCall).foldl
    (nonstrictStep filename (captureComments tagName raw) functionNames) []

/-- The default-context entry mapping of a catalog object, when its
`translations` field is a well-formed object carrying the empty context. -/
def contextEntries (p : PoJSON) : Option Translations :=
  match p.translations with
  | .obj ctxs => lookupA ctxs ""
  | .invalid => none

/-! ## Concrete fixtures used by witnesses and counterexamples -/

/-- The tree of `gettext("hello");` on line 1. -/
def exAstHello : Node :=
  .program [.exprStmt (.call (.ident "gettext") [.literalStr "hello"] 1)]

/-- The tree of `gettext("hello");` on line 2. -/
def exAstHello2 : Node :=
  .program [.exprStmt (.call (.ident "gettext") [.literalStr "hello"] 2)]

/-- The tree of `ngettext("1 item", "N items", n);` on line 1. -/
def exAstPlural : Node :=
  .program
    [.exprStmt
      (.call (.ident "ngettext")
        [.literalStr "1 item", .literalStr "N items", .ident "n"] 1)]

/-- The tree of `gettext("m");` on line 2. -/
def exAstM : Node := .program [.exprStmt (.call (.ident "gettext") [.literalStr "m"] 2)]

/-- Two identical tag comments, one on the line before the call and one on
the call's line. -/
def exRawM : List RawComment := [⟨1, " L10n: x"⟩, ⟨2, " L10n: x"⟩]

/-- An existing catalog entry carrying a non-empty translation. -/
def exOldCat : Translations := [("hello", ⟨"hello", none, ["bonjour"], none⟩)]

/-- The entry extraction builds for `gettext("hello")` at `f:1` with no
comments. -/
def exNewHello : Translations :=
  [("hello", ⟨"hello", none, [], some ⟨some "f:1", some ""⟩⟩)]

/-- The per-file mapping extracted from `exAstHello`. -/
def exHelloT : Translations :=
  [("hello", ⟨"hello", none, [], some ⟨some "f:1", some ""⟩⟩)]

/-- The per-file mapping extracted from `exAstPlural`. -/
def exPluralT : Translations :=
  [("1 item", ⟨"1 item", some "N items", ["", ""], some ⟨some "f:1", some ""⟩⟩)]

/-- A loaded catalog whose `translations` field is not a mapping. -/
def exInvalidPo : PoJSON := ⟨"utf-8", [], .invalid⟩

/-- Options with `joinExisting` set and everything else defaulted. -/
def exOptsJoin : ParseOptions := ⟨true, none, none, false, none, none⟩

/-- Options with an explicit one-element keyword list. -/
def exOpts : ParseOptions := ⟨false, some ["gettext"], none, false, none, none⟩

/-- A successfully loaded catalog holding `exOldCat` and an old timestamp. -/
def exLoadedPo : PoJSON :=
  ⟨"utf-8", [("pot-creation-date", some "OLD")], .obj [("", exOldCat)]⟩

/-- One source file containing `gettext("hello")`. -/
def exSrcHello : SourceFile := ⟨"f", exAstHello, []⟩

/-- The output of the join-existing run over `exSrcHello`. -/
def exJoinOut : ParseOutput :=
  match parse (some exLoadedPo) [exSrcHello] exOptsJoin "NOW" with
  | .ok o => o
  | .error _ => ⟨⟨"", [], .invalid⟩, []⟩

/-- The accumulator of that run: the old entry overwritten by the freshly
extracted one. -/
def exMergedT : Translations :=
  [("hello", ⟨"hello", none, [], some ⟨some "f:1", some ""⟩⟩)]

/-- The output of a fresh run with caller-supplied keyword list. -/
def exFreshOut : ParseOutput :=
  match parse none [] exOpts "NOW" with
  | .ok o => o
  | .error _ => ⟨⟨"", [], .invalid⟩, []⟩

/-- A `gettext` call sitting inside markup. -/
def exJsxCall : Node := .call (.ident "gettext") [.literalStr "attr msg"] 3

/-- A markup element whose attribute value embeds `exJsxCall` in an
expression container. -/
def exJsxAttrAst : Node :=
  .program
    [.exprStmt (.jsxElement [.jsxAttribute (.jsxExpressionContainer exJsxCall)] [])]

/-- The mapping extracted from `exJsxAttrAst`. -/
def exJsxT : Translations :=
  match parseFile "f" exJsxAttrAst [] "L10n:" ["gettext"] false with
  | .ok T => T
  | .error _ => []

/-! ## Association-list lemmas -/

theorem lookupA_setA_self {α : Type} (l : List (String × α)) (k : String) (v : α) :
    lookupA (setA l k v) k = some v := by
  induction l with
  | nil => simp [setA, lookupA]
  | cons kv rest ih =>
      obtain ⟨k', w⟩ := kv
      by_cases h : k' = k <;> simp [setA, lookupA, h, ih]

theorem lookupA_setA_ne {α : Type} (l : List (String × α)) (k k' : String) (v : α)
    (h : k' ≠ k) : lookupA (setA l k v) k' = lookupA l k' := by
  induction l with
  | nil =>
      have hne : ¬(k = k') := fun hh => h hh.symm
      simp [setA, lookupA, hne]
  | cons kv rest ih =>
      obtain ⟨k₀, w⟩ := kv
      by_cases h0 : k₀ = k
      · subst h0
        have hne : ¬(k₀ = k') := fun hh => h hh.symm
        simp [setA, lookupA, hne]
      · simp [setA, lookupA, h0, ih]

theorem lookupA_setA_isSome {α : Type} (l : List (String × α)) (k k' : String) (v : α)
    (h : (lookupA l k').isSome) : (lookupA (setA l k v) k').isSome := by
  by_cases hk : k' = k
  · subst hk; simp [lookupA_setA_self]
  · rwa [lookupA_setA_ne _ _ _ _ hk]

theorem lookupA_eq_none_iff {α : Type} (l : List (String × α)) (k : String) :
    lookupA l k = none ↔ ∀ kv ∈ l, kv.1 ≠ k := by
  induction l with
  | nil => simp [lookupA]
  | cons kv rest ih =>
      obtain ⟨k', w⟩ := kv
      by_cases h : k' = k <;> simp [lookupA, h, ih]

theorem lookupA_isSome_of_mem {α : Type} {l : List (String × α)} {kv : String × α}
    (h : kv ∈ l) : (lookupA l kv.1).isSome := by
  induction h with
  | head rest => simp [lookupA]
  | tail kv' hmem ih =>
      by_cases hk : kv'.1 = kv.1
      · simp [lookupA, hk]
      · simpa [lookupA, hk] using ih

theorem setA_of_lookupA_eq_none {α : Type} {l : List (String × α)} {k : String}
    (v : α) (h : lookupA l k = none) : setA l k v = l ++ [(k, v)] := by
  induction l with
  | nil => simp [setA]
  | cons kv rest ih =>
      obtain ⟨k', w⟩ := kv
      by_cases hk : k' = k
      · simp [lookupA, hk] at h
      · simp [lookupA, hk] at h
        simp [setA, hk, ih h]

theorem setA_map_fst_of_isSome {α : Type} {l : List (String × α)} {k : String}
    (v : α) (h : (lookupA l k).isSome) :
    (setA l k v).map Prod.fst = l.map Prod.fst := by
  induction l with
  | nil => simp [lookupA] at h
  | cons kv rest ih =>
      obtain ⟨k', w⟩ := kv
      by_cases hk : k' = k
      · simp [setA, hk]
      · simp [lookupA, hk] at h
        simp [setA, hk, ih h]

theorem setA_eq_self_of_lookupA {α : Type} {l : List (String × α)} {k : String} {v : α}
    (h : lookupA l k = some v) : setA l k v = l := by
  induction l with
  | nil => simp [lookupA] at h
  | cons kv rest ih =>
      obtain ⟨k', w⟩ := kv
      by_cases hk : k' = k
      · simp [lookupA, hk] at h
        simp [setA, hk, h]
      · simp [lookupA, hk] at h
        simp [setA, hk, ih h]

theorem mem_setA {α : Type} {l : List (String × α)} {k : String} {v : α} {kv : String × α}
    (h : kv ∈ setA l k v) : kv ∈ l ∨ kv = (k, v) := by
  induction l with
  | nil => simpa [setA] using h
  | cons kv' rest ih =>
      obtain ⟨k', w⟩ := kv'
      by_cases hk : k' = k
      · subst hk
        rcases (by simpa [setA] using h : kv = (k', v) ∨ kv ∈ rest) with h | h
        · exact Or.inr h
        · exact Or.inl (List.mem_cons_of_mem _ h)
      · rcases (by simpa [setA, hk] using h : kv = (k', w) ∨ kv ∈ setA rest k v) with h | h
        · exact Or.inl (by simp [h])
        · rcases ih h with h | h
          · exact Or.inl (List.mem_cons_of_mem _ h)
          · exact Or.inr h

/-! ## mergeTranslations lemmas -/

theorem mergeTranslations_cons (o : Translations) (kv : String × Translation)
    (rest : Translations) :
    mergeTranslations o (kv :: rest) =
      mergeTranslations
        (match lookupA o kv.1 with
         | some old => setA o kv.1 (mergeTranslation old kv.2)
         | none => setA o kv.1 kv.2)
        rest := rfl

theorem mergeTranslations_cons_mem (o : Translations) (kv : String × Translation)
    (rest : Translations) (old : Translation) (h : lookupA o kv.1 = some old) :
    mergeTranslations o (kv :: rest) =
      mergeTranslations (setA o kv.1 (mergeTranslation old kv.2)) rest := by
  rw [mergeTranslations_cons, h]

theorem mergeTranslations_cons_new (o : Translations) (kv : String × Translation)
    (rest : Translations) (h : lookupA o kv.1 = none) :
    mergeTranslations o (kv :: rest) = mergeTranslations (setA o kv.1 kv.2) rest := by
  rw [mergeTranslations_cons, h]

theorem lookupA_eq_none_of_not_mem_keys {α : Type} {l : List (String × α)} {k : String}
    (h : k ∉ l.map Prod.fst) : lookupA l k = none := by
  rw [lookupA_eq_none_iff]
  intro kv hkv hk
  exact h (hk ▸ List.mem_map_of_mem Prod.fst hkv)

theorem lookupA_mergeTranslations_of_not_in_new (o n : Translations) (m : String)
    (h : lookupA n m = none) :
    lookupA (mergeTranslations o n) m = lookupA o m := by
  induction n generalizing o with
  | nil => rfl
  | cons kv rest ih =>
      have hk : kv.1 ≠ m := ((lookupA_eq_none_iff _ _).1 h) kv (List.mem_cons_self _ _)
      have hr : lookupA rest m = none := by
        rw [lookupA_eq_none_iff]
        intro kv' hkv'
        exact ((lookupA_eq_none_iff _ _).1 h) kv' (List.mem_cons_of_mem _ hkv')
      have hm : m ≠ kv.1 := fun hh => hk hh.symm
      cases hl : lookupA o kv.1 with
      | some old =>
          rw [mergeTranslations_cons_mem _ _ _ _ hl, ih _ hr,
            lookupA_setA_ne _ _ _ _ hm]
      | none =>
          rw [mergeTranslations_cons_new _ _ _ hl, ih _ hr,
            lookupA_setA_ne _ _ _ _ hm]

theorem lookupA_mergeTranslations_isSome (o n : Translations) (m : String)
    (h : (lookupA o m).isSome) : (lookupA (mergeTranslations o n) m).isSome := by
  induction n generalizing o with
  | nil => exact h
  | cons kv rest ih =>
      cases hl : lookupA o kv.1 with
      | some old =>
          rw [mergeTranslations_cons_mem _ _ _ _ hl]
          exact ih _ (lookupA_setA_isSome _ _ _ _ h)
      | none =>
          rw [mergeTranslations_cons_new _ _ _ hl]
          exact ih _ (lookupA_setA_isSome _ _ _ _ h)

theorem lookupA_mergeTranslations_merge (o n : Translations) (m : String)
    (ov nv : Translation) (hnodup : (n.map Prod.fst).Nodup)
    (ho : lookupA o m = some ov) (hn : lookupA n m = some nv) :
    lookupA (mergeTranslations o n) m = some (mergeTranslation ov nv) := by
  induction n generalizing o ov with
  | nil => simp [lookupA] at hn
  | cons kv rest ih =>
      have hnodup' : (kv.1 :: rest.map Prod.fst).Nodup := by simpa using hnodup
      have hnd1 : kv.1 ∉ rest.map Prod.fst := (List.nodup_cons.1 hnodup').1
      have hnd2 : (rest.map Prod.fst).Nodup := (List.nodup_cons.1 hnodup').2
      by_cases hk : kv.1 = m
      · have hrest : lookupA rest m = none :=
          lookupA_eq_none_of_not_mem_keys (hk ▸ hnd1)
        have hnv : nv = kv.2 := by
          rw [lookupA, if_pos hk] at hn
          exact (Option.some.inj hn).symm
        rw [mergeTranslations_cons_mem _ _ _ ov (hk ▸ ho),
          lookupA_mergeTranslations_of_not_in_new _ _ _ hrest, hnv, ← hk]
        exact lookupA_setA_self _ _ _
      · have hn' : lookupA rest m = some nv := by
          rwa [lookupA, if_neg hk] at hn
        have hm : m ≠ kv.1 := fun hh => hk hh.symm
        cases hl : lookupA o kv.1 with
        | some old =>
            rw [mergeTranslations_cons_mem _ _ _ _ hl]
            exact ih _ _ hnd2 (by rw [lookupA_setA_ne _ _ _ _ hm, ho]) hn'
        | none =>
            rw [mergeTranslations_cons_new _ _ _ hl]
            exact ih _ _ hnd2 (by rw [lookupA_setA_ne _ _ _ _ hm, ho]) hn'

theorem lookupA_mergeTranslations_new_only (o n : Translations) (m : String)
    (nv : Translation) (hnodup : (n.map Prod.fst).Nodup)
    (ho : lookupA o m = none) (hn : lookupA n m = some nv) :
    lookupA (mergeTranslations o n) m = some nv := by
  induction n generalizing o with
  | nil => simp [lookupA] at hn
  | cons kv rest ih =>
      have hnodup' : (kv.1 :: rest.map Prod.fst).Nodup := by simpa using hnodup
      have hnd1 : kv.1 ∉ rest.map Prod.fst := (List.nodup_cons.1 hnodup').1
      have hnd2 : (rest.map Prod.fst).Nodup := (List.nodup_cons.1 hnodup').2
      by_cases hk : kv.1 = m
      · have hrest : lookupA rest m = none :=
          lookupA_eq_none_of_not_mem_keys (hk ▸ hnd1)
        have hnv : nv = kv.2 := by
          rw [lookupA, if_pos hk] at hn
          exact (Option.some.inj hn).symm
        rw [mergeTranslations_cons_new _ _ _ (hk ▸ ho),
          lookupA_mergeTranslations_of_not_in_new _ _ _ hrest, hnv, ← hk]
        exact lookupA_setA_self _ _ _
      · have hn' : lookupA rest m = some nv := by
          rwa [lookupA, if_neg hk] at hn
        have hm : m ≠ kv.1 := fun hh => hk hh.symm
        cases hl : lookupA o kv.1 with
        | some old =>
            rw [mergeTranslations_cons_mem _ _ _ _ hl]
            exact ih _ hnd2 (by rw [lookupA_setA_ne _ _ _ _ hm, ho]) hn'
        | none =>
            rw [mergeTranslations_cons_new _ _ _ hl]
            exact ih _ hnd2 (by rw [lookupA_setA_ne _ _ _ _ hm, ho]) hn'

theorem mergeTranslations_append (o n : Translations)
    (h : ∀ kv ∈ n, lookupA o kv.1 = none) (hnodup : (n.map Prod.fst).Nodup) :
    mergeTranslations o n = o ++ n := by
  induction n generalizing o with
  | nil => simp [mergeTranslations]
  | cons kv rest ih =>
      have hnodup' : (kv.1 :: rest.map Prod.fst).Nodup := by simpa using hnodup
      have hnd1 : kv.1 ∉ rest.map Prod.fst := (List.nodup_cons.1 hnodup').1
      have hnd2 : (rest.map Prod.fst).Nodup := (List.nodup_cons.1 hnodup').2
      have h0 : lookupA o kv.1 = none := h kv (List.mem_cons_self _ _)
      rw [mergeTranslations_cons_new _ _ _ h0, setA_of_lookupA_eq_none _ h0,
        ih _ ?_ hnd2, List.append_assoc]
      · rfl
      · intro kv' hkv'
        have hne : kv'.1 ≠ kv.1 := by
          intro hh
          exact hnd1 (hh ▸ List.mem_map_of_mem Prod.fst hkv')
        rw [lookupA_eq_none_iff]
        intro kv'' hkv'' hk
        rcases List.mem_append.1 hkv'' with hmem | hmem
        · exact ((lookupA_eq_none_iff _ _).1 (h kv' (List.mem_cons_of_mem _ hkv'))) kv'' hmem hk
        · simp at hmem
          exact hne (by rw [← hk, hmem])

theorem mergeTranslations_nil_left (n : Translations) (hnodup : (n.map Prod.fst).Nodup) :
    mergeTranslations [] n = n := by
  simpa using mergeTranslations_append [] n (by intro kv _; rfl) hnodup

theorem lookupA_self_of_nodup (l : Translations) (hnodup : (l.map Prod.fst).Nodup) :
    ∀ kv ∈ l, lookupA l kv.1 = some kv.2 := by
  induction l with
  | nil => intro kv h; simp at h
  | cons kv0 rest ih =>
      have hnodup' : (kv0.1 :: rest.map Prod.fst).Nodup := by simpa using hnodup
      have hnd1 : kv0.1 ∉ rest.map Prod.fst := (List.nodup_cons.1 hnodup').1
      have hnd2 : (rest.map Prod.fst).Nodup := (List.nodup_cons.1 hnodup').2
      intro kv h
      rcases List.mem_cons.1 h with h | h
      · subst h
        simp [lookupA]
      · have hne : kv0.1 ≠ kv.1 := by
          intro hh
          exact hnd1 (hh ▸ List.mem_map_of_mem Prod.fst h)
        rw [lookupA, if_neg hne]
        exact ih hnd2 kv h

theorem mergeTranslations_eq_self (o n : Translations)
    (h : ∀ kv ∈ n, lookupA o kv.1 = some kv.2)
    (hself : ∀ kv ∈ n, mergeTranslation kv.2 kv.2 = kv.2) :
    mergeTranslations o n = o := by
  induction n generalizing o with
  | nil => rfl
  | cons kv rest ih =>
      have h0 : lookupA o kv.1 = some kv.2 := h kv (List.mem_cons_self _ _)
      rw [mergeTranslations_cons_mem _ _ _ _ h0,
        hself kv (List.mem_cons_self _ _), setA_eq_self_of_lookupA h0]
      exact ih o (fun kv' h' => h kv' (List.mem_cons_of_mem _ h'))
        (fun kv' h' => hself kv' (List.mem_cons_of_mem _ h'))

theorem mergeTranslations_map_fst_of_all_mem (o n : Translations)
    (h : ∀ kv ∈ n, (lookupA o kv.1).isSome) :
    (mergeTranslations o n).map Prod.fst = o.map Prod.fst := by
  induction n generalizing o with
  | nil => rfl
  | cons kv rest ih =>
      have h0 : (lookupA o kv.1).isSome := h kv (List.mem_cons_self _ _)
      cases hl : lookupA o kv.1 with
      | some old =>
          rw [mergeTranslations_cons_mem _ _ _ _ hl,
            ih _ ?_, setA_map_fst_of_isSome _ h0]
          intro kv' hkv'
          exact lookupA_setA_isSome _ _ _ _ (h kv' (List.mem_cons_of_mem _ hkv'))
      | none => rw [hl] at h0; simp at h0

/-! ## parseFile lemmas -/

theorem except_bind_ok {ε α β : Type} (e : Except ε α) (k : α → Except ε β) (v : β) :
    (e >>= k) = Except.ok v ↔ ∃ a, e = Except.ok a ∧ k a = Except.ok v := by
  cases e <;> simp [Bind.bind, Except.bind]

theorem maybeExtractMsgids_nonstrict_ne_error (node : Node) (kw : List String)
    (a : Option Node) : maybeExtractMsgids node kw false ≠ .error a := by
  unfold maybeExtractMsgids
  cases getFunctionNameAndArguments node with
  | none => simp
  | some p =>
      obtain ⟨fn, args⟩ := p
      simp only []
      split
      · match args with
        | [] => simp
        | [firstArg] =>
            simp only []
            split <;> simp
        | firstArg :: secondArg :: rest =>
            simp only []
            split
            · simp
            · split <;> simp
      · simp

theorem processCall_nonstrict (fn : String) (cs : List CommentNode) (kw : List String)
    (acc : Translations) (node : Node) :
    processCall fn cs kw false acc node = .ok (nonstrictStep fn cs kw acc node) := by
  unfold processCall nonstrictStep
  cases h : maybeExtractMsgids node kw false with
  | skip => rfl
  | one m => rfl
  | two m p => rfl
  | error a => exact absurd h (maybeExtractMsgids_nonstrict_ne_error node kw a)

theorem foldlM_processCall_nonstrict (fn : String) (cs : List CommentNode)
    (kw : List String) (l : List Node) (acc : Translations) :
    List.foldlM (processCall fn cs kw false) acc l =
      .ok (List.foldl (nonstrictStep fn cs kw) acc l) := by
  induction l generalizing acc with
  | nil => rfl
  | cons c rest ih =>
      rw [List.foldlM_cons, processCall_nonstrict]
      simpa using ih (nonstrictStep fn cs kw acc c)

theorem parseFile_nonstrict (fn : String) (ast : Node) (raw : List RawComment)
    (tag : String) (kw : List String) :
    parseFile fn ast raw tag kw false = .ok (parseFileNonstrict fn ast raw tag kw) := by
  unfold parseFile parseFileNonstrict
  exact foldlM_processCall_nonstrict _ _ _ _ _

theorem processCall_ok_cases {fn : String} {cs : List CommentNode} {kw : List String}
    {strict : Bool} {acc : Translations} {node : Node} {acc' : Translations}
    (h : processCall fn cs kw strict acc node = .ok acc') :
    acc' = acc ∨
      ∃ msgid plural, acc' =
        addTranslation acc
          (buildTranslation fn msgid plural (callLine node)
            (findComments cs (callLine node))) := by
  unfold processCall at h
  cases hm : maybeExtractMsgids node kw strict with
  | skip => rw [hm] at h; exact Or.inl (Except.ok.inj h).symm
  | error a => rw [hm] at h; exact absurd h (by simp [throw, throwThe, MonadExceptOf.throw])
  | one m => rw [hm] at h; exact Or.inr ⟨m, none, (Except.ok.inj h).symm⟩
  | two m p => rw [hm] at h; exact Or.inr ⟨m, some p, (Except.ok.inj h).symm⟩

theorem foldlM_processCall_preserve {fn : String} {cs : List CommentNode}
    {kw : List String} {strict : Bool} (P : Translations → Prop)
    (hstep : ∀ acc msgid plural line comments, P acc →
      P (addTranslation acc (buildTranslation fn msgid plural line comments)))
    (l : List Node) (acc T : Translations) (hP : P acc)
    (h : List.foldlM (processCall fn cs kw strict) acc l = .ok T) : P T := by
  induction l generalizing acc with
  | nil => cases h; exact hP
  | cons c rest ih =>
      rw [List.foldlM_cons, except_bind_ok] at h
      obtain ⟨acc₁, h1, h2⟩ := h
      rcases processCall_ok_cases h1 with heq | ⟨msgid, plural, heq⟩
      · exact ih _ (heq ▸ hP) h2
      · exact ih _ (heq ▸ hstep _ _ _ _ _ hP) h2

theorem not_mem_keys_of_lookupA_eq_none {α : Type} {l : List (String × α)} {k : String}
    (h : lookupA l k = none) : k ∉ l.map Prod.fst := by
  intro hmem
  obtain ⟨kv, hkv, hk⟩ := List.mem_map.1 hmem
  have hs := lookupA_isSome_of_mem hkv
  rw [hk, h] at hs
  simp at hs

theorem lookupA_addTranslation_isSome (acc : Translations) (t : Translation) (k : String)
    (h : (lookupA acc k).isSome) : (lookupA (addTranslation acc t) k).isSome := by
  unfold addTranslation
  cases lookupA acc t.msgid with
  | some old => exact lookupA_setA_isSome _ _ _ _ h
  | none => exact lookupA_setA_isSome _ _ _ _ h

theorem lookupA_addTranslation_self (acc : Translations) (t : Translation) :
    (lookupA (addTranslation acc t) t.msgid).isSome := by
  unfold addTranslation
  cases lookupA acc t.msgid with
  | some old => simp [lookupA_setA_self]
  | none => simp [lookupA_setA_self]

theorem keysNodup_addTranslation (acc : Translations) (t : Translation)
    (h : (acc.map Prod.fst).Nodup) : ((addTranslation acc t).map Prod.fst).Nodup := by
  unfold addTranslation
  cases hl : lookupA acc t.msgid with
  | some old => rw [setA_map_fst_of_isSome _ (by simp [hl])]; exact h
  | none =>
      rw [setA_of_lookupA_eq_none _ hl]
      simp only [List.map_append, List.map_cons, List.map_nil]
      rw [List.nodup_append]
      refine ⟨h, List.nodup_singleton _, ?_⟩
      intro a ha hb
      simp at hb
      subst hb
      exact not_mem_keys_of_lookupA_eq_none hl ha

theorem parseFile_keysNodup {fn : String} {ast : Node} {raw : List RawComment}
    {tag : String} {kw : List String} {strict : Bool} {T : Translations}
    (h : parseFile fn ast raw tag kw strict = .ok T) : (T.map Prod.fst).Nodup := by
  unfold parseFile at h
  exact foldlM_processCall_preserve (fun acc => (acc.map Prod.fst).Nodup)
    (fun _ _ _ _ _ hP => keysNodup_addTranslation _ _ hP)
    _ _ _ (by simp) h

theorem buildTranslation_msgid (fn msgid : String) (plural : Option String)
    (line : Nat) (comments : String) :
    (buildTranslation fn msgid plural line comments).msgid = msgid := rfl

theorem foldlM_processCall_preserve_isSome {fn : String} {cs : List CommentNode}
    {kw : List String} {strict : Bool} {m : String} (l : List Node)
    (acc T : Translations) (hP : (lookupA acc m).isSome)
    (h : List.foldlM (processCall fn cs kw strict) acc l = .ok T) :
    (lookupA T m).isSome :=
  foldlM_processCall_preserve (fun acc => (lookupA acc m).isSome)
    (fun _ _ _ _ _ hmem =>
      lookupA_addTranslation_isSome _ _ _ hmem) l acc T hP h

theorem foldlM_processCall_hit {fn : String} {cs : List CommentNode}
    {kw : List String} {strict : Bool} {m : String} {c : Node}
    (hm : maybeExtractMsgids c kw strict = .one m ∨
      ∃ p, maybeExtractMsgids c kw strict = .two m p)
    (l : List Node) :
    ∀ acc T : Translations, c ∈ l →
      List.foldlM (processCall fn cs kw strict) acc l = .ok T →
      (lookupA T m).isSome := by
  induction l with
  | nil => intro acc T hc; simp at hc
  | cons c₀ rest ih =>
      intro acc T hc h
      rw [List.foldlM_cons, except_bind_ok] at h
      obtain ⟨acc₁, h1, h2⟩ := h
      rcases List.mem_cons.1 hc with hc0 | hc0
      · subst hc0
        have hsome : (lookupA acc₁ m).isSome := by
          unfold processCall at h1
          rcases hm with hone | ⟨p, htwo⟩
          · rw [hone] at h1
            have heq : acc₁ =
                addTranslation acc
                  (buildTranslation fn m none (callLine c) (findComments cs (callLine c))) :=
              (Except.ok.inj h1).symm
            rw [heq]
            exact lookupA_addTranslation_self _ _
          · rw [htwo] at h1
            have heq : acc₁ =
                addTranslation acc
                  (buildTranslation fn m (some p) (callLine c) (findComments cs (callLine c))) :=
              (Except.ok.inj h1).symm
            rw [heq]
            exact lookupA_addTranslation_self _ _
        exact foldlM_processCall_preserve_isSome rest _ _ hsome h2
      · exact ih _ _ hc0 h2

/-! ## Walk lemmas -/

theorem visit_mem_visitList {x n : Node} {l : List Node} (hn : n ∈ l)
    (hx : x ∈ visit n) : x ∈ visitList l := by
  induction hn with
  | head rest => exact List.mem_append_left _ hx
  | tail n₀ hmem ih => exact List.mem_append_right _ ih

theorem getFn_none_of_not_call (node : Node) (h : isCall node = false) :
    getFunctionNameAndArguments node = none := by
  cases node
  case call callee args line => simp [isCall] at h
  all_goals rfl

theorem isCall_of_maybeExtract_ne_skip {node : Node} {kw : List String} {strict : Bool}
    (h : maybeExtractMsgids node kw strict ≠ .skip) : isCall node = true := by
  by_contra hc
  have hb : isCall node = false := by simpa using hc
  apply h
  unfold maybeExtractMsgids
  rw [getFn_none_of_not_call node hb]

/-! ## Comment-capture lemmas -/

theorem mem_captureComments {tag : String} {raw : List RawComment} {v : CommentNode}
    (h : v ∈ captureComments tag raw) :
    ∃ rc ∈ raw, matchesCommentRegex tag rc.text = true ∧
      v.line = rc.line ∧ v.value = jsTrim (stripLeadingSlash rc.text) ∧ v.value ≠ "" := by
  obtain ⟨rc, hrc, heq⟩ := List.mem_filterMap.1 h
  by_cases hmatch : matchesCommentRegex tag rc.text
  · rw [if_pos hmatch] at heq
    by_cases hempty : jsTrim (stripLeadingSlash rc.text) = ""
    · simp [hempty] at heq
    · rw [if_neg hempty] at heq
      refine ⟨rc, hrc, hmatch, ?_, ?_, ?_⟩ <;>
        simp [← Option.some.inj heq, hempty]
  · simp [hmatch] at heq

theorem captureComments_value_ne_empty {tag : String} {raw : List RawComment}
    {v : CommentNode} (h : v ∈ captureComments tag raw) : v.value ≠ "" := by
  obtain ⟨rc, _, _, _, _, hne⟩ := mem_captureComments h
  exact hne

theorem filterMap_if_eq_map_filter (cs : List CommentNode) (p : CommentNode → Prop)
    [DecidablePred p] :
    (cs.filterMap fun c => if p c then some c.value else none) =
      (cs.filter fun c => decide (p c)).map CommentNode.value := by
  induction cs with
  | nil => rfl
  | cons c rest ih =>
      by_cases hc : p c <;> simp [List.filterMap_cons, List.filter_cons, hc, ih]

theorem findComments_eq_filter (cs : List CommentNode) (line : Nat)
    (h : ∀ c ∈ cs, c.value ≠ "") :
    findComments cs line =
      String.intercalate "\n"
        ((cs.filter fun c => decide (c.line = line ∨ c.line + 1 = line)).map
          CommentNode.value) := by
  unfold findComments
  rw [filterMap_if_eq_map_filter cs (fun c => c.line = line ∨ c.line + 1 = line)]
  congr 1
  apply List.filter_eq_self.2
  intro v hv
  obtain ⟨c, hc, hceq⟩ := List.mem_map.1 hv
  have := h c (List.mem_of_mem_filter hc)
  subst hceq
  simpa using this

/-! ## Entry-shape invariant -/

theorem mergeTranslation_msgstr (o n : Translation) :
    (mergeTranslation o n).msgstr = n.msgstr := rfl

theorem parseFile_msgstr_shape {fn : String} {ast : Node} {raw : List RawComment}
    {tag : String} {kw : List String} {strict : Bool} {T : Translations}
    (h : parseFile fn ast raw tag kw strict = .ok T) :
    ∀ kv ∈ T, kv.2.msgstr = [] ∨ kv.2.msgstr = ["", ""] := by
  unfold parseFile at h
  refine foldlM_processCall_preserve
    (fun acc => ∀ kv ∈ acc, kv.2.msgstr = [] ∨ kv.2.msgstr = ["", ""])
    ?_ _ _ _ (by simp) h
  intro acc msgid plural line comments hP kv hkv
  have hb : (buildTranslation fn msgid plural line comments).msgstr = [] ∨
      (buildTranslation fn msgid plural line comments).msgstr = ["", ""] := by
    cases plural <;> simp [buildTranslation]
  unfold addTranslation at hkv
  cases hl : lookupA acc (buildTranslation fn msgid plural line comments).msgid with
  | some old =>
      rw [hl] at hkv
      rcases mem_setA hkv with hmem | hmem
      · exact hP kv hmem
      · rw [hmem]
        rw [mergeTranslation_msgstr]
        exact hb
  | none =>
      rw [hl] at hkv
      rcases mem_setA hkv with hmem | hmem
      · exact hP kv hmem
      · rw [hmem]
        exact hb

/-! ## parse lemmas -/

theorem except_map_ok {ε α β : Type} (f : α → β) (e : Except ε α) (v : β) :
    Except.map f e = Except.ok v ↔ ∃ a, e = Except.ok a ∧ f a = v := by
  cases e <;> simp [Except.map]

theorem sourcesFold_nonstrict (sources : List SourceFile) (tag : String)
    (kw : List String) (acc : Translations) :
    List.foldlM
      (fun acc src =>
        (parseFile src.filename src.ast src.comments tag kw false).map
          (fun newTranslations => mergeTranslations acc newTranslations))
      acc sources =
    .ok (sources.foldl
      (fun acc src =>
        mergeTranslations acc
          (parseFileNonstrict src.filename src.ast src.comments tag kw))
      acc) := by
  induction sources generalizing acc with
  | nil => rfl
  | cons src rest ih =>
      rw [List.foldlM_cons, parseFile_nonstrict]
      simpa [Except.map] using
        ih (mergeTranslations acc (parseFileNonstrict src.filename src.ast src.comments tag kw))

theorem parse_none_eq (sources : List SourceFile) (opts : ParseOptions) (now : String)
    (hs : opts.sanity = false) :
    parse none sources opts now =
      (let kws : List String :=
        match opts.keyword with
        | some kw => kw ++ kw.map (fun k => "n" ++ k)
        | none => ["gettext", "ngettext"];
      let tr : Translations :=
        sources.foldl
          (fun acc src =>
            mergeTranslations acc
              (parseFileNonstrict src.filename src.ast src.comments
                (jsOrStr opts.addComments "L10n:") kws))
          [];
      let hdrs : Headers := defaultHeaders opts.projectIdVersion opts.reportBugsTo now;
      Except.ok
        { po := { charset := "utf-8",
                  headers :=
                    if opts.joinExisting && compareTranslations tr [] then
                      setA hdrs "pot-creation-date" (some now)
                    else hdrs,
                  translations := .obj (setA [("", ([] : Translations))] "" tr) },
          finalKeyword := kws }) := by
  unfold parse
  have hnone : (if opts.joinExisting then (none : Option PoJSON) else none) = none := by
    cases opts.joinExisting <;> rfl
  rw [hnone]
  simp only [hs, sourcesFold_nonstrict]
  rfl

theorem parse_invalid_translations (po : PoJSON) (sources : List SourceFile)
    (opts : ParseOptions) (now : String) (hj : opts.joinExisting = true)
    (hinv : po.translations = .invalid) :
    parse (some po) sources opts now =
      .error (.message "An error occurred while using the provided PO file. Please make sure it is valid by using `msgfmt -c`.") := by
  unfold parse
  rw [hj]
  simp only [if_true, Option.getD_some, hinv]

theorem parse_some_inversion (po : PoJSON) (sources : List SourceFile)
    (opts : ParseOptions) (now : String) (out : ParseOutput)
    (hj : opts.joinExisting = true)
    (h : parse (some po) sources opts now = .ok out) :
    ∃ ctxs original translations,
      po.translations = .obj ctxs ∧
      lookupA ctxs "" = some original ∧
      out.po.charset = po.charset ∧
      out.po.translations = .obj (setA ctxs "" translations) ∧
      out.po.headers =
        (if compareTranslations translations original then
          setA po.headers "pot-creation-date" (some now)
        else po.headers) ∧
      out.finalKeyword =
        (match opts.keyword with
         | some kw => kw ++ kw.map (fun k => "n" ++ k)
         | none => ["gettext", "ngettext"]) := by
  unfold parse at h
  rw [hj] at h
  simp only [if_true, Option.getD_some] at h
  split at h
  · simp at h
  · split at h
    · simp at h
    · rename_i x ctxs heq y original hl
      simp only [except_map_ok] at h
      obtain ⟨translations, hfold, hpure⟩ := h
      refine ⟨ctxs, original, translations, heq, hl, ?_, ?_, ?_, ?_⟩ <;>
        rw [← hpure] <;> simp [hj]

/-! ## Claim theorems -/

/-- C1 (amended): `mergeTranslations` never drops a msgid that is present
only in the old catalog (such entries are returned unchanged), but for a
msgid that IS re-extracted, the merged entry is
`mergeTranslation old new`, whose `msgstr` is the NEW entry's `msgstr` —
extraction always supplies a fresh empty `msgstr` (`[]` or `["", ""]`), so
an existing non-empty translation for a re-extracted msgid is overwritten
rather than left unchanged. -/
theorem C1_claim (o n : Translations) (m : String)
    (hnd : (n.map Prod.fst).Nodup) :
    (lookupA n m = none → lookupA (mergeTranslations o n) m = lookupA o m) ∧
    (∀ ov nv, lookupA o m = some ov → lookupA n m = some nv →
      lookupA (mergeTranslations o n) m = some (mergeTranslation ov nv) ∧
      (mergeTranslation ov nv).msgstr = nv.msgstr) := by
  constructor
  · exact fun h => lookupA_mergeTranslations_of_not_in_new o n m h
  · intro ov nv ho hn
    exact ⟨lookupA_mergeTranslations_merge o n m ov nv hnd ho hn, rfl⟩

/-- C1 witness: a concrete merge in which the old catalog's `"hello"` entry
is combined with a freshly extracted entry, yielding exactly
`mergeTranslation old new`, whose `msgstr` is the new (empty) one. -/
theorem C1_witness :
    lookupA (mergeTranslations exOldCat exNewHello) "hello" =
      some (mergeTranslation ⟨"hello", none, ["bonjour"], none⟩
        ⟨"hello", none, [], some ⟨some "f:1", some ""⟩⟩) ∧
    (mergeTranslation ⟨"hello", none, ["bonjour"], none⟩
      ⟨"hello", none, [], some ⟨some "f:1", some ""⟩⟩).msgstr = [] := by
  have h := (C1_claim exOldCat exNewHello "hello" (by decide)).2
    ⟨"hello", none, ["bonjour"], none⟩ ⟨"hello", none, [], some ⟨some "f:1", some ""⟩⟩
    (by decide) (by decide)
  exact ⟨h.1, h.2⟩

/-- C1 counterexample: the old catalog holds `msgstr = ["bonjour"]` for
`"hello"`; re-extracting `gettext("hello")` and merging leaves `msgstr = []`
— the non-empty translation is NOT unchanged. -/
theorem C1_counterexample :
    lookupA exOldCat "hello" = some ⟨"hello", none, ["bonjour"], none⟩ ∧
    (parseFile "f" exAstHello [] "L10n:" ["gettext", "ngettext"] false).map
        (fun T => (lookupA (mergeTranslations exOldCat T) "hello").map Translation.msgstr)
      = .ok (some []) ∧
    some ([] : List String) ≠ some ["bonjour"] :=
  ⟨rfl, rfl, by decide⟩

/-- C2 (amended): extracting a file once and merging into a fresh catalog
reproduces the extraction mapping; merging the same extraction a second time
preserves the msgid KEY set, and reproduces the very same entries provided
every entry is a fixpoint of self-merge (its comment fields contain no
duplicate and no empty lines) — the comment-deduplicating merge can otherwise
normalize an entry's comment text, so the full idempotence claimed does not
hold unconditionally (see the counterexample).  Within one file, a repeated
msgid is merged via `mergeTranslation` into the existing entry, not
overwritten. -/
theorem C2_claim (fn : String) (ast : Node) (raw : List RawComment)
    (tag : String) (kw : List String) (strict : Bool) (T : Translations)
    (h : parseFile fn ast raw tag kw strict = .ok T) :
    ((mergeTranslations (mergeTranslations [] T) T).map Prod.fst = T.map Prod.fst) ∧
    ((∀ kv ∈ T, mergeTranslation kv.2 kv.2 = kv.2) →
      mergeTranslations (mergeTranslations [] T) T = T) ∧
    (∀ (acc : Translations) (t : Translation) (old : Translation),
      lookupA acc t.msgid = some old →
      addTranslation acc t = setA acc t.msgid (mergeTranslation old t)) := by
  have hnd := parseFile_keysNodup h
  have hnil : mergeTranslations [] T = T := mergeTranslations_nil_left T hnd
  refine ⟨?_, ?_, ?_⟩
  · rw [hnil]
    exact mergeTranslations_map_fst_of_all_mem T T (fun kv hkv => lookupA_isSome_of_mem hkv)
  · intro hself
    rw [hnil]
    exact mergeTranslations_eq_self T T (lookupA_self_of_nodup T hnd) hself
  · intro acc t old hold
    unfold addTranslation
    rw [hold]

/-- C2 witness: for the comment-free extraction of `gettext("hello")`,
merging the result into a fresh catalog twice reproduces the single
extraction exactly. -/
theorem C2_witness :
    mergeTranslations (mergeTranslations [] exHelloT) exHelloT = exHelloT := by
  have h := (C2_claim "f" exAstHello [] "L10n:" ["gettext", "ngettext"] false
    exHelloT rfl).2.1
  exact h (by decide)

/-- C2 counterexample: a file with two identical tag comments attached to one
call.  Extracting once yields extracted-comment text `"L10n: x\nL10n: x"`;
merging the extraction into a fresh catalog twice dedups it to `"L10n: x"`,
so the double-merge entry set differs from the single extraction. -/
theorem C2_counterexample :
    (parseFile "f" exAstM exRawM "L10n:" ["gettext"] false).map
        (fun T => decide (mergeTranslations (mergeTranslations [] T) T = T)) =
      .ok false ∧
    (parseFile "f" exAstM exRawM "L10n:" ["gettext"] false).map
        (fun T => (lookupA T "m").bind (fun e => e.comments.map CommentsRec.extracted)) =
      .ok (some (some "L10n: x\nL10n: x")) ∧
    (parseFile "f" exAstM exRawM "L10n:" ["gettext"] false).map
        (fun T =>
          (lookupA (mergeTranslations (mergeTranslations [] T) T) "m").bind
            (fun e => e.comments.map CommentsRec.extracted)) =
      .ok (some (some "L10n: x")) :=
  ⟨rfl, rfl, rfl⟩

/-- C8: the catalog merge is monotonically non-shrinking — every old key is
still present in the result; an old entry whose msgid is absent from the new
mapping is returned unchanged; and a msgid only in the new mapping is
inserted verbatim. -/
theorem C8_claim (o n : Translations) (m : String) :
    ((lookupA o m).isSome → (lookupA (mergeTranslations o n) m).isSome) ∧
    (lookupA n m = none → lookupA (mergeTranslations o n) m = lookupA o m) ∧
    ((n.map Prod.fst).Nodup → lookupA o m = none →
      ∀ t, lookupA n m = some t → lookupA (mergeTranslations o n) m = some t) :=
  ⟨fun h => lookupA_mergeTranslations_isSome o n m h,
   fun h => lookupA_mergeTranslations_of_not_in_new o n m h,
   fun hnd ho t ht => lookupA_mergeTranslations_new_only o n m t hnd ho ht⟩

/-- C8 witness: merging a one-entry new mapping keyed `"x"` into the old
catalog keeps `"hello"` present and unchanged, and inserts `"x"` verbatim. -/
theorem C8_witness :
    (lookupA (mergeTranslations exOldCat [("x", ⟨"x", none, [], none⟩)]) "hello").isSome ∧
    lookupA (mergeTranslations exOldCat [("x", ⟨"x", none, [], none⟩)]) "hello" =
      lookupA exOldCat "hello" ∧
    lookupA (mergeTranslations exOldCat [("x", ⟨"x", none, [], none⟩)]) "x" =
      some ⟨"x", none, [], none⟩ := by
  refine ⟨(C8_claim exOldCat [("x", ⟨"x", none, [], none⟩)] "hello").1 (by decide),
    (C8_claim exOldCat [("x", ⟨"x", none, [], none⟩)] "hello").2.1 (by decide),
    (C8_claim exOldCat [("x", ⟨"x", none, [], none⟩)] "x").2.2 (by decide) (by decide)
      _ (by decide)⟩

/-- C3: for a call whose resolved name is among the allowed function names —
if the name starts with `"n"` and the first and second arguments both qualify
as statically determinable strings, the call yields the two extracted
strings; otherwise, if the first argument qualifies, it yields that one
string; otherwise it raises an extraction error carrying the unparseable
first argument exactly when strict mode is on, and is skipped silently when
it is off. -/
theorem C3_claim (node : Node) (allowed : List String) (strict : Bool)
    (fn : Option String) (args : List Node)
    (hres : getFunctionNameAndArguments node = some (fn, args))
    (hallow : allowedContains allowed fn = true) :
    (∀ fa sa rest, args = fa :: sa :: rest →
      (startsWithN fn && isString fa && isString sa) = true →
      maybeExtractMsgids node allowed strict = .two (extractStr fa) (extractStr sa)) ∧
    (∀ fa sa rest, args = fa :: sa :: rest →
      (startsWithN fn && isString fa && isString sa) = false → isString fa = true →
      maybeExtractMsgids node allowed strict = .one (extractStr fa)) ∧
    (∀ fa, args = [fa] → isString fa = true →
      maybeExtractMsgids node allowed strict = .one (extractStr fa)) ∧
    (∀ fa, args.head? = some fa → isString fa = false →
      maybeExtractMsgids node allowed strict =
        (if strict then .error (some fa) else .skip)) ∧
    (args = [] →
      maybeExtractMsgids node allowed strict = (if strict then .error none else .skip)) := by
  refine ⟨?_, ?_, ?_, ?_, ?_⟩
  · intro fa sa rest hargs hcond
    subst hargs
    simp [maybeExtractMsgids, hres, hallow, hcond]
  · intro fa sa rest hargs hcond hfa
    subst hargs
    simp only [maybeExtractMsgids, hres, hallow, hcond, hfa]
    simp [hcond, hfa]
    intro hsn
    by_contra hsa
    have hsa' : isString sa = true := by simpa using hsa
    rw [hsn, hfa, hsa'] at hcond
    simp at hcond
  · intro fa hargs hfa
    subst hargs
    simp [maybeExtractMsgids, hres, hallow, hfa]
  · intro fa hfa hns
    cases args with
    | nil => simp at hfa
    | cons a rest =>
        have ha : a = fa := by simpa using hfa
        subst ha
        cases rest with
        | nil => simp [maybeExtractMsgids, hres, hallow, hns]
        | cons b rest' => simp [maybeExtractMsgids, hres, hallow, hns]
  · intro hargs
    subst hargs
    simp [maybeExtractMsgids, hres, hallow]

/-- C3 witness: `gettext(x)` with a non-literal argument errors carrying the
argument in strict mode and is skipped otherwise; `ngettext("a", "b", n)`
extracts both strings. -/
theorem C3_witness :
    maybeExtractMsgids (.call (.ident "gettext") [.ident "x"] 1) ["gettext"] true =
      .error (some (.ident "x")) ∧
    maybeExtractMsgids (.call (.ident "gettext") [.ident "x"] 1) ["gettext"] false =
      .skip ∧
    maybeExtractMsgids
      (.call (.ident "ngettext") [.literalStr "a", .literalStr "b", .ident "n"] 1)
      ["gettext", "ngettext"] false = .two "a" "b" := by
  refine ⟨?_, ?_, ?_⟩
  · have h := (C3_claim (.call (.ident "gettext") [.ident "x"] 1) ["gettext"] true
      (some "gettext") [.ident "x"] rfl rfl).2.2.2.1 (.ident "x") rfl rfl
    simpa using h
  · have h := (C3_claim (.call (.ident "gettext") [.ident "x"] 1) ["gettext"] false
      (some "gettext") [.ident "x"] rfl rfl).2.2.2.1 (.ident "x") rfl rfl
    simpa using h
  · have h := (C3_claim
      (.call (.ident "ngettext") [.literalStr "a", .literalStr "b", .ident "n"] 1)
      ["gettext", "ngettext"] false (some "ngettext")
      [.literalStr "a", .literalStr "b", .ident "n"] rfl rfl).1
      (.literalStr "a") (.literalStr "b") [.ident "n"] rfl rfl
    simpa [extractStr] using h

/-- C4 (amended): a plural extraction builds an entry with `msgid_plural`
set to the second string and `msgstr = ["", ""]`; a singular extraction
builds an entry with NO plural field and `msgstr = []` — the empty sequence,
not a one-element sequence of an empty string as the claim states; and every
entry of a per-file extraction result has `msgstr` equal to one of those two
shapes. -/
theorem C4_claim :
    (∀ fn msgid p line comments,
      (buildTranslation fn msgid (some p) line comments).msgid_plural = some p ∧
      (buildTranslation fn msgid (some p) line comments).msgstr = ["", ""]) ∧
    (∀ fn msgid line comments,
      (buildTranslation fn msgid none line comments).msgid_plural = none ∧
      (buildTranslation fn msgid none line comments).msgstr = []) ∧
    (∀ fn ast raw tag kw strict T, parseFile fn ast raw tag kw strict = .ok T →
      ∀ kv ∈ T, kv.2.msgstr = [] ∨ kv.2.msgstr = ["", ""]) :=
  ⟨fun _ _ _ _ _ => ⟨rfl, rfl⟩,
   fun _ _ _ _ => ⟨rfl, rfl⟩,
   fun _ _ _ _ _ _ _ h => parseFile_msgstr_shape h⟩

/-- C4 witness: the entry extracted from `ngettext("1 item", "N items", n)`
satisfies the msgstr-shape invariant via the extraction of `exAstPlural`. -/
theorem C4_witness :
    (("1 item",
        (⟨"1 item", some "N items", ["", ""], some ⟨some "f:1", some ""⟩⟩ : Translation)) :
      String × Translation).2.msgstr = [] ∨
    (("1 item",
        (⟨"1 item", some "N items", ["", ""], some ⟨some "f:1", some ""⟩⟩ : Translation)) :
      String × Translation).2.msgstr = ["", ""] :=
  C4_claim.2.2 "f" exAstPlural [] "L10n:" ["gettext", "ngettext"] false exPluralT rfl
    _ (by decide)

/-- C4 counterexample: `gettext("hello")` produces `msgstr = []`, not the
claimed one-element sequence `[""]`. -/
theorem C4_counterexample :
    (parseFile "f" exAstHello [] "L10n:" ["gettext", "ngettext"] false).map
        (fun T => (lookupA T "hello").map Translation.msgstr) = .ok (some []) ∧
    some ([] : List String) ≠ some [""] :=
  ⟨rfl, by decide⟩

/-- C5 (amended): every captured comment comes from a raw comment whose text
matches the tag pattern (a non-matching comment is never attached), with the
attached text being the trim of the slash-stripped original — so the
doc-style marker `/` is stripped, but a literal tag prefix such as `L10n:`
is NOT removed from the attached text; and attachment joins, with newlines
and in encounter order, exactly the captured comments whose line equals the
call's line or the line before it. -/
theorem C5_claim (tag : String) (raw : List RawComment) (line : Nat) :
    (∀ v ∈ captureComments tag raw,
      ∃ rc ∈ raw, matchesCommentRegex tag rc.text = true ∧ v.line = rc.line ∧
        v.value = jsTrim (stripLeadingSlash rc.text)) ∧
    (findComments (captureComments tag raw) line =
      String.intercalate "\n"
        (((captureComments tag raw).filter
            (fun c => decide (c.line = line ∨ c.line + 1 = line))).map
          CommentNode.value)) ∧
    (∀ text, jsStartsWith "/" text = true → stripLeadingSlash text = jsDrop 1 text) ∧
    (∀ text, jsStartsWith "/" text = false → stripLeadingSlash text = text) := by
  refine ⟨?_, ?_, ?_, ?_⟩
  · intro v hv
    obtain ⟨rc, hrc, hmatch, hline, hvalue, _⟩ := mem_captureComments hv
    exact ⟨rc, hrc, hmatch, hline, hvalue⟩
  · exact findComments_eq_filter _ line (fun c hc => captureComments_value_ne_empty hc)
  · intro text h
    unfold stripLeadingSlash
    rw [if_pos h]
  · intro text h
    unfold stripLeadingSlash
    rw [if_neg (by simp [h])]

/-- C5 witness: the tag comment `" L10n: hello"` on line 1 is captured for a
call on line 2, and the attachment equation holds for that capture. -/
theorem C5_witness :
    (∃ rc ∈ [(⟨1, " L10n: hello"⟩ : RawComment)],
      matchesCommentRegex "L10n:" rc.text = true ∧
      (⟨1, "L10n: hello"⟩ : CommentNode).line = rc.line ∧
      (⟨1, "L10n: hello"⟩ : CommentNode).value = jsTrim (stripLeadingSlash rc.text)) ∧
    findComments (captureComments "L10n:" [⟨1, " L10n: hello"⟩]) 2 =
      String.intercalate "\n"
        (((captureComments "L10n:" [⟨1, " L10n: hello"⟩]).filter
            (fun c => decide (c.line = 2 ∨ c.line + 1 = 2))).map CommentNode.value) := by
  constructor
  · exact (C5_claim "L10n:" [⟨1, " L10n: hello"⟩] 2).1 ⟨1, "L10n: hello"⟩ (by decide)
  · exact (C5_claim "L10n:" [⟨1, " L10n: hello"⟩] 2).2.1

/-- C5 counterexample: the comment `// L10n: hello` attached to
`gettext("hello")` on the next line keeps its `L10n:` tag in the extracted
comment text — the tag is not stripped as the claim states. -/
theorem C5_counterexample :
    (parseFile "f" exAstHello2 [⟨1, " L10n: hello"⟩] "L10n:" ["gettext"] false).map
        (fun T => (lookupA T "hello").bind (fun e => e.comments.map CommentsRec.extracted)) =
      .ok (some (some "L10n: hello")) ∧
    jsStartsWith "L10n:" "L10n: hello" = true ∧
    some ("L10n: hello") ≠ some "hello" :=
  ⟨rfl, rfl, by decide⟩

theorem setA_defaultHeaders_pot (a b : Option String) (now : String) :
    setA (defaultHeaders a b now) "pot-creation-date" (some now) =
      defaultHeaders a b now := by
  simp [defaultHeaders, setA]

/-- C6: with `joinExisting` set, a failed read/parse of the existing catalog
(`readPoFile` returned nothing) makes the run fall back to a fresh default
catalog and complete without error (given extraction itself does not run in
strict mode), whereas a catalog that was loaded but whose `translations`
field is not a well-formed mapping aborts the run immediately with the
descriptive error. -/
theorem C6_claim (sources : List SourceFile) (opts : ParseOptions) (now : String)
    (po : PoJSON) :
    (opts.joinExisting = true → opts.sanity = false →
      ∃ out, parse none sources opts now = .ok out ∧
        out.po.charset = "utf-8" ∧
        out.po.headers = defaultHeaders opts.projectIdVersion opts.reportBugsTo now) ∧
    (opts.joinExisting = true → po.translations = .invalid →
      parse (some po) sources opts now =
        .error (.message "An error occurred while using the provided PO file. Please make sure it is valid by using `msgfmt -c`.")) := by
  constructor
  · intro hj hs
    rw [parse_none_eq sources opts now hs]
    refine ⟨_, rfl, rfl, ?_⟩
    show (if _ then setA (defaultHeaders _ _ _) _ _ else _) = _
    split
    · exact setA_defaultHeaders_pot _ _ _
    · rfl
  · intro hj hinv
    exact parse_invalid_translations po sources opts now hj hinv

/-- C6 witness: with no loadable catalog the run completes on the fresh
default catalog; with an invalid `translations` field it aborts with the
descriptive error. -/
theorem C6_witness :
    (∃ out, parse none [] exOptsJoin "NOW" = .ok out ∧
      out.po.charset = "utf-8" ∧
      out.po.headers = defaultHeaders none none "NOW") ∧
    parse (some exInvalidPo) [] exOptsJoin "NOW" =
      .error (.message "An error occurred while using the provided PO file. Please make sure it is valid by using `msgfmt -c`.") := by
  constructor
  · exact (C6_claim [] exOptsJoin "NOW" exInvalidPo).1 rfl rfl
  · exact (C6_claim [] exOptsJoin "NOW" exInvalidPo).2 rfl rfl

/-- C7: after a successful `joinExisting` run, the catalog's
`pot-creation-date` header is set to the current time exactly when the final
accumulator is structurally unequal to the originally loaded default-context
entries (the other headers are untouched either way); when the accumulator
equals the original entries, the entire header list — including the original
timestamp — is returned unchanged. -/
theorem C7_claim (po : PoJSON) (sources : List SourceFile) (opts : ParseOptions)
    (now : String) (out : ParseOutput) (orig final : Translations)
    (hj : opts.joinExisting = true)
    (h : parse (some po) sources opts now = .ok out)
    (horig : contextEntries po = some orig)
    (hfinal : contextEntries out.po = some final) :
    (final ≠ orig →
      out.po.headers = setA po.headers "pot-creation-date" (some now) ∧
      lookupA out.po.headers "pot-creation-date" = some (some now)) ∧
    (final = orig → out.po.headers = po.headers) := by
  obtain ⟨ctxs, original, translations, hpt, hl, hcs, htr, hhd, hkw⟩ :=
    parse_some_inversion po sources opts now out hj h
  have horig' : orig = original := by
    simp only [contextEntries, hpt] at horig
    rw [hl] at horig
    exact (Option.some.inj horig).symm
  have hfinal' : final = translations := by
    simp only [contextEntries, htr] at hfinal
    rw [lookupA_setA_self] at hfinal
    exact (Option.some.inj hfinal).symm
  subst horig' hfinal'
  constructor
  · intro hne
    have hcmp : compareTranslations final orig = true := by
      simp [compareTranslations, hne]
    rw [hhd, if_pos hcmp]
    exact ⟨rfl, lookupA_setA_self _ _ _⟩
  · intro heq
    have hcmp : compareTranslations final orig = false := by
      simp [compareTranslations, heq]
    rw [hhd, if_neg (by simp [hcmp])]

/-- C7 witness: merging `gettext("hello")` into the loaded catalog changes
the entries, so the run rewrites `pot-creation-date` to the current time;
and an empty run leaves the loaded headers untouched. -/
theorem C7_witness :
    (exJoinOut.po.headers = setA exLoadedPo.headers "pot-creation-date" (some "NOW") ∧
      lookupA exJoinOut.po.headers "pot-creation-date" = some (some "NOW")) := by
  exact (C7_claim exLoadedPo [exSrcHello] exOptsJoin "NOW" exJoinOut exOldCat exMergedT
    rfl rfl rfl rfl).1 (by decide)

theorem self_mem_visit (n : Node) : n ∈ visit n := by
  cases n
  case jsxAttribute value => cases value <;> simp [visit]
  all_goals simp [visit]

/-- C9: the extended walk reaches a node nested in a markup attribute's
embedded-expression container, in a spread attribute's argument, and in a
markup element's children; a call the walk reaches whose extraction yields a
msgid lands in the per-file mapping of any successful `parseFile` run; and
the non-strict extraction of any tree succeeds. -/
theorem C9_claim :
    (∀ (attrs children : List Node) (e x : Node),
      Node.jsxAttribute (Node.jsxExpressionContainer e) ∈ attrs → x ∈ visit e →
      x ∈ visit (Node.jsxElement attrs children)) ∧
    (∀ (attrs children : List Node) (arg x : Node),
      Node.jsxSpreadAttribute arg ∈ attrs → x ∈ visit arg →
      x ∈ visit (Node.jsxElement attrs children)) ∧
    (∀ (attrs children : List Node) (child x : Node),
      child ∈ children → x ∈ visit child →
      x ∈ visit (Node.jsxElement attrs children)) ∧
    (∀ (fn : String) (ast : Node) (raw : List RawComment) (tag : String)
      (kw : List String) (strict : Bool) (T : Translations) (c : Node) (m : String),
      c ∈ visit ast →
      (maybeExtractMsgids c kw strict = .one m ∨
        ∃ p, maybeExtractMsgids c kw strict = .two m p) →
      parseFile fn ast raw tag kw strict = .ok T →
      (lookupA T m).isSome) ∧
    (∀ (fn : String) (ast : Node) (raw : List RawComment) (tag : String)
      (kw : List String), ∃ T, parseFile fn ast raw tag kw false = .ok T) := by
  refine ⟨?_, ?_, ?_, ?_, ?_⟩
  · intro attrs children e x hattr hx
    have hx1 : x ∈ visit (Node.jsxAttribute (Node.jsxExpressionContainer e)) :=
      List.mem_append_left _ (List.mem_append_left _ hx)
    have hl : x ∈ visitList attrs := visit_mem_visitList hattr hx1
    exact List.mem_append_left _ (List.mem_append_left _ hl)
  · intro attrs children arg x hattr hx
    have hx1 : x ∈ visit (Node.jsxSpreadAttribute arg) :=
      List.mem_append_left _ hx
    have hl : x ∈ visitList attrs := visit_mem_visitList hattr hx1
    exact List.mem_append_left _ (List.mem_append_left _ hl)
  · intro attrs children child x hchild hx
    have hl : x ∈ visitList children := visit_mem_visitList hchild hx
    exact List.mem_append_left _ (List.mem_append_right _ hl)
  · intro fn ast raw tag kw strict T c m hc hm hok
    have hne : maybeExtractMsgids c kw strict ≠ .skip := by
      rcases hm with h1 | ⟨p, h2⟩
      · rw [h1]; simp
      · rw [h2]; simp
    have hcall : isCall c = true := isCall_of_maybeExtract_ne_skip hne
    have hcf : c ∈ (visit ast).filter isCall := List.mem_filter.2 ⟨hc, hcall⟩
    unfold parseFile at hok
    exact foldlM_processCall_hit hm _ _ _ hcf hok
  · intro fn ast raw tag kw
    exact ⟨_, parseFile_nonstrict fn ast raw tag kw⟩

/-- C9 witness: the `gettext` call inside the markup attribute's expression
container of `exJsxAttrAst` is reached by the walk, and its msgid is present
in the extracted mapping. -/
theorem C9_witness :
    exJsxCall ∈ visit exJsxAttrAst ∧ (lookupA exJsxT "attr msg").isSome := by
  have hv : exJsxCall ∈
      visit (Node.jsxElement [Node.jsxAttribute (Node.jsxExpressionContainer exJsxCall)] []) :=
    (C9_claim).1 [Node.jsxAttribute (Node.jsxExpressionContainer exJsxCall)] []
      exJsxCall exJsxCall (List.mem_singleton.2 rfl) (self_mem_visit exJsxCall)
  have hast : exJsxCall ∈ visit exJsxAttrAst :=
    List.mem_append_left _ (List.mem_append_left _ (List.mem_append_left _ hv))
  refine ⟨hast, ?_⟩
  exact (C9_claim).2.2.2.1 "f" exJsxAttrAst [] "L10n:" ["gettext"] false exJsxT
    exJsxCall "attr msg" hast (Or.inl rfl) rfl

/-- C10 (amended): the orchestrator is a deterministic pure function of its
explicit inputs in this model, but it does NOT leave the caller's options
object unchanged: `options.keyword` after the run (made explicit as
`finalKeyword`) is the supplied list extended with an `"n"`-prefixed alias
per entry, or the installed default list when none was supplied — not the
caller's original value. -/
theorem C10_claim (loaded : Option PoJSON) (sources : List SourceFile)
    (opts : ParseOptions) (now : String) (out : ParseOutput)
    (h : parse loaded sources opts now = .ok out) :
    out.finalKeyword =
      (match opts.keyword with
       | some kw => kw ++ kw.map (fun k => "n" ++ k)
       | none => ["gettext", "ngettext"]) := by
  unfold parse at h
  generalize (if opts.joinExisting then loaded else none).getD (freshPoJSON opts now) = P at h
  dsimp only at h
  cases hpt : P.translations with
  | invalid =>
      simp only [hpt] at h
      exact absurd h (by simp)
  | obj ctxs =>
      simp only [hpt] at h
      cases hl : lookupA ctxs "" with
      | none =>
          simp only [hl] at h
          exact absurd h (by simp)
      | some original =>
          simp only [hl, except_map_ok] at h
          obtain ⟨translations, hfold, hpure⟩ := h
          rw [← hpure]

/-- C10 witness: a concrete fresh run shows `options.keyword`'s final value
is the supplied list with its plural alias appended. -/
theorem C10_witness : exFreshOut.finalKeyword = ["gettext", "ngettext"] := by
  exact C10_claim none [] exOpts "NOW" exFreshOut rfl

/-- C10 counterexample: the caller supplied `keyword = ["gettext"]`, and
after the run the options' keyword list is `["gettext", "ngettext"]` — the
options object is mutated, contradicting the claim that `parse` leaves it
unchanged. -/
theorem C10_counterexample :
    exOpts.keyword = some ["gettext"] ∧
    (parse none [] exOpts "NOW").map ParseOutput.finalKeyword =
      .ok ["gettext", "ngettext"] ∧
    some ["gettext", "ngettext"] ≠ some ["gettext"] :=
  ⟨rfl, rfl, by decide⟩
